import Mathlib

/-!
Verification of the Server-Monitor telemetry core against its specification.

The Python backend (src/app.py) is shallowly embedded below: wall-clock
timestamps and the REAL-typed metric columns become rationals (`ℚ`), Python's
`round` becomes round-half-to-even on `ℚ`, SQLite's `CAST (.. AS INTEGER)`
becomes truncation toward zero, Python dicts become association lists in
insertion order, and OS readings delivered by psutil become explicit inputs.
Fallible OS calls are `Except`/`Option` values.  Each embedded definition is
named after the Python object it translates.
-/

namespace ServerMonitor

/-- Truncation toward zero on `ℚ`, the semantics of SQLite `CAST(x AS INTEGER)`
applied to a REAL value. -/
def sqlCastInt (q : ℚ) : ℤ := if q < 0 then -⌊-q⌋ else ⌊q⌋

/-- Python's builtin `round(x)` on a rational: round half to even, to `ℤ`. -/
def pyRoundInt (q : ℚ) : ℤ :=
  let f := ⌊q⌋
  let r := q - (f : ℚ)
  if r < 1 / 2 then f
  else if 1 / 2 < r then f + 1
  else if f % 2 = 0 then f else f + 1

/-- Python's `round(x, d)` for `d` decimal digits. -/
def pyRound (d : ℕ) (q : ℚ) : ℚ := (pyRoundInt (q * 10 ^ d) : ℚ) / 10 ^ d

/-- Fields of a psutil per-NIC IO counter snapshot that app.py reads
(`snetio`: cumulative bytes and packets in each direction). -/
structure NetCounters where
  bytes_sent : ℚ
  bytes_recv : ℚ
  packets_sent : ℚ
  packets_recv : ℚ
  deriving DecidableEq

/-- One row of the `metrics` table (src/app.py `init_db`): one Sample per
collection tick.  `conn_json` / `extra_json` are the stored JSON payloads,
kept opaque as strings. -/
structure Sample where
  timestamp : ℚ
  cpu_percent : ℚ
  ram_percent : ℚ
  ram_used_gb : ℚ
  ram_total_gb : ℚ
  disk_percent : ℚ
  disk_used_gb : ℚ
  disk_total_gb : ℚ
  net_sent_bytes : ℚ
  net_recv_bytes : ℚ
  net_sent_rate : ℚ
  net_recv_rate : ℚ
  conn_json : String
  extra_json : String
  deriving DecidableEq

/-- src/app.py line 152: `MAX_RATE = 50_000_000` (bytes/sec). -/
def MAX_RATE : ℤ := 50000000

/-- src/app.py line 42: `COLLECT_INTERVAL = 30` (seconds). -/
def COLLECT_INTERVAL : ℤ := 30

/-- Mutable baseline of `MetricsCollector`: `_prev_net` and `_prev_time`. -/
structure CollectorState where
  prev_net : NetCounters
  prev_time : ℚ
  deriving DecidableEq

/-- The OS readings one `MetricsCollector._collect` tick consumes, gathered as
explicit input (psutil calls and `time.time()`). -/
structure CollectInput where
  now : ℚ
  cpu : ℚ
  ram_percent : ℚ
  ram_used_bytes : ℚ
  ram_total_bytes : ℚ
  disk_percent : ℚ
  disk_used_bytes : ℚ
  disk_total_bytes : ℚ
  net : NetCounters
  conn_json : String
  extra_json : String
  deriving DecidableEq

/-- src/app.py lines 148-149: `round((cur - prev) / elapsed) if elapsed > 0
else 0`, the pre-clamp default-NIC rate of one tick. -/
def rawNetRate (prev cur elapsed : ℚ) : ℤ :=
  if 0 < elapsed then pyRoundInt ((cur - prev) / elapsed) else 0

/-- src/app.py lines 153-156: a rate above `MAX_RATE` or below zero collapses
to 0; anything else passes through. -/
def capRate (r : ℤ) : ℤ := if MAX_RATE < r ∨ r < 0 then 0 else r

/-- `MetricsCollector._collect` (src/app.py lines 127-195): computes the
capped default-NIC rates, replaces the `_prev_net` / `_prev_time` baseline
and assembles the Sample row that is INSERTed into `metrics`. -/
def collect (st : CollectorState) (inp : CollectInput) : CollectorState × Sample :=
  let elapsed := inp.now - st.prev_time
  let sent_rate := capRate (rawNetRate st.prev_net.bytes_sent inp.net.bytes_sent elapsed)
  let recv_rate := capRate (rawNetRate st.prev_net.bytes_recv inp.net.bytes_recv elapsed)
  (⟨inp.net, inp.now⟩,
    { timestamp := inp.now
      cpu_percent := inp.cpu
      ram_percent := inp.ram_percent
      ram_used_gb := pyRound 2 (inp.ram_used_bytes / 1024 ^ 3)
      ram_total_gb := pyRound 2 (inp.ram_total_bytes / 1024 ^ 3)
      disk_percent := inp.disk_percent
      disk_used_gb := pyRound 2 (inp.disk_used_bytes / 1024 ^ 3)
      disk_total_gb := pyRound 2 (inp.disk_total_bytes / 1024 ^ 3)
      net_sent_bytes := inp.net.bytes_sent
      net_recv_bytes := inp.net.bytes_recv
      net_sent_rate := (sent_rate : ℚ)
      net_recv_rate := (recv_rate : ℚ)
      conn_json := inp.conn_json
      extra_json := inp.extra_json })

/-- The per-NIC speed dict value built by `NetworkSpeedTracker.get_speed`
(src/app.py lines 337-351). -/
structure NicSpeed where
  sent_bps : ℤ
  recv_bps : ℤ
  sent_pps : ℤ
  recv_pps : ℤ
  sent_total : ℚ
  recv_total : ℚ
  deriving DecidableEq

/-- The all-zero speed entry used when a NIC has no previous counters or the
elapsed time is not positive (src/app.py lines 337-342). -/
def zeroSpeed (cur : NetCounters) : NicSpeed :=
  { sent_bps := 0, recv_bps := 0, sent_pps := 0, recv_pps := 0
    sent_total := cur.bytes_sent, recv_total := cur.bytes_recv }

/-- Mutable state of `NetworkSpeedTracker`: `_prev_all` (a per-NIC dict of
counters, in insertion order) and `_prev_time`. -/
structure NetTrackerState where
  prev_all : List (String × NetCounters)
  prev_time : ℚ
  deriving DecidableEq

/-- Body of the per-NIC loop of `NetworkSpeedTracker.get_speed` (src/app.py
lines 334-351): zero rates when the NIC has no recorded baseline or
`elapsed <= 0`; otherwise the byte rates are `(cur - prev)/elapsed * 8`
(bits/sec) and packet rates `(cur - prev)/elapsed`, each Python-rounded. -/
def nicSpeedOf (prev_all : List (String × NetCounters)) (elapsed : ℚ)
    (nic : String) (cur : NetCounters) : NicSpeed :=
  match List.lookup nic prev_all with
  | none => zeroSpeed cur
  | some prev =>
    if elapsed ≤ 0 then zeroSpeed cur
    else
      { sent_bps := pyRoundInt ((cur.bytes_sent - prev.bytes_sent) / elapsed * 8)
        recv_bps := pyRoundInt ((cur.bytes_recv - prev.bytes_recv) / elapsed * 8)
        sent_pps := pyRoundInt ((cur.packets_sent - prev.packets_sent) / elapsed)
        recv_pps := pyRoundInt ((cur.packets_recv - prev.packets_recv) / elapsed)
        sent_total := cur.bytes_sent
        recv_total := cur.bytes_recv }

/-- `NetworkSpeedTracker.get_speed` (src/app.py lines 327-359), the full-dict
path (`iface=None`; the `iface` argument only selects one entry of this
result afterwards).  Returns the new state — `_prev_all` and `_prev_time`
replaced wholesale — together with the per-NIC speed dict. -/
def netGetSpeed (st : NetTrackerState) (now : ℚ)
    (cur_all : List (String × NetCounters)) :
    NetTrackerState × List (String × NicSpeed) :=
  let elapsed := now - st.prev_time
  (⟨cur_all, now⟩, cur_all.map fun p => (p.1, nicSpeedOf st.prev_all elapsed p.1 p.2))

/-- Fields of a psutil disk IO counter snapshot that app.py reads. -/
structure DiskCounters where
  read_bytes : ℚ
  write_bytes : ℚ
  read_count : ℚ
  write_count : ℚ
  deriving DecidableEq

/-- Mutable state of `DiskSpeedTracker`: previous counters (`None` when
psutil returned none), previous time, and the four last-computed rates. -/
structure DiskTrackerState where
  prev_disk : Option DiskCounters
  prev_time : ℚ
  read_bps : ℚ
  write_bps : ℚ
  read_iops : ℚ
  write_iops : ℚ
  deriving DecidableEq

/-- `DiskSpeedTracker.__init__` (src/app.py lines 365-371): record the
baseline counters and zero rates. -/
def diskInit (counters : Option DiskCounters) (now : ℚ) : DiskTrackerState :=
  ⟨counters, now, 0, 0, 0, 0⟩

/-- The dict returned by `DiskSpeedTracker.get_speed` (src/app.py lines
387-392), with each stored rate Python-rounded. -/
structure DiskSpeed where
  read_bps : ℤ
  write_bps : ℤ
  read_iops : ℤ
  write_iops : ℤ
  deriving DecidableEq

/-- `DiskSpeedTracker.get_speed` (src/app.py lines 373-392).  The stored rate
fields are recomputed only when `elapsed > 0` and both counter snapshots are
present; the baseline is replaced unconditionally; the rounded stored rates
are returned. -/
def diskGetSpeed (st : DiskTrackerState) (now : ℚ) (disk : Option DiskCounters) :
    DiskTrackerState × DiskSpeed :=
  let elapsed := now - st.prev_time
  let st1 :=
    match disk, st.prev_disk with
    | some d, some p =>
      if 0 < elapsed then
        { st with
          read_bps := (d.read_bytes - p.read_bytes) / elapsed
          write_bps := (d.write_bytes - p.write_bytes) / elapsed
          read_iops := (d.read_count - p.read_count) / elapsed
          write_iops := (d.write_count - p.write_count) / elapsed }
      else st
    | _, _ => st
  let st2 := { st1 with prev_disk := disk, prev_time := now }
  (st2, ⟨pyRoundInt st2.read_bps, pyRoundInt st2.write_bps,
         pyRoundInt st2.read_iops, pyRoundInt st2.write_iops⟩)

/-- Anchored match of a literal pattern stem against the start of a name,
on the underlying character lists. -/
def leadMatch : List Char → List Char → Bool
  | [], _ => true
  | _ :: _, [] => false
  | a :: as, b :: bs => a == b && leadMatch as bs

/-- The alternatives of `_VIRTUAL_NIC_PATTERNS` (src/app.py lines 206-208),
reduced to their literal stems: `re.match` anchors at the string start and
the only metacharacter tail, the optional digits after `docker`, is
irrelevant for an anchored match, so each alternative is a stem test. -/
def VIRTUAL_NIC_STEMS : List String :=
  ["lo", "docker", "veth", "br-", "virbr", "tun", "tap", "wg",
   "tailscale", "dummy", "bond_slave", "sit", "ip6tnl"]

/-- `_VIRTUAL_NIC_PATTERNS.match(iface)` as a boolean. -/
def isVirtualNic (name : String) : Bool :=
  VIRTUAL_NIC_STEMS.any fun p => leadMatch p.data name.data

/-- The slice of a psutil interface snapshot `_detect_default_nic` consumes:
name, administrative up state, and whether an IPv4 address is assigned. -/
structure IfaceInfo where
  name : String
  isup : Bool
  hasIPv4 : Bool
  deriving DecidableEq

/-- Lexicographic order on character lists by code point, Python's string
order restricted to what the ranking below needs. -/
def charListLe : List Char → List Char → Bool
  | [], _ => true
  | _ :: _, [] => false
  | a :: as, b :: bs =>
    if a.toNat < b.toNat then true
    else if b.toNat < a.toNat then false
    else charListLe as bs

/-- Python's tuple order on the sort key `(not has_ipv4, name)` of
src/app.py line 234: interfaces with IPv4 first, then name ascending. -/
def rankLe (a b : String × Bool) : Bool :=
  if a.2 = b.2 then charListLe a.1.data b.1.data else a.2

/-- `_detect_default_nic` (src/app.py lines 211-242): drop virtual-pattern
and down interfaces, sort the survivors by `(not has_ipv4, name)`, take the
first; otherwise the first non-loopback interface of the snapshot, then
`'lo'`. -/
def detectDefaultNic (stats : List IfaceInfo) : String :=
  let candidates :=
    (stats.filter fun i => !isVirtualNic i.name && i.isup).map fun i => (i.name, i.hasIPv4)
  match candidates.mergeSort rankLe with
  | c :: _ => c.1
  | [] =>
    match stats.find? fun i => i.name != "lo" with
    | some i => i.name
    | none => "lo"

/-- Componentwise sum of two counter snapshots. -/
def addCounters (a b : NetCounters) : NetCounters :=
  ⟨a.bytes_sent + b.bytes_sent, a.bytes_recv + b.bytes_recv,
   a.packets_sent + b.packets_sent, a.packets_recv + b.packets_recv⟩

/-- `psutil.net_io_counters()` without `pernic`: the system-wide aggregate,
which psutil documents as the sum over all interfaces of the per-NIC
counters. -/
def netIoTotal (per_nic : List (String × NetCounters)) : NetCounters :=
  per_nic.foldl (fun acc p => addCounters acc p.2) ⟨0, 0, 0, 0⟩

/-- `_get_default_nic_counters` (src/app.py lines 248-254): the cached
default interface's counters when present in the per-NIC dict, else the
system-wide aggregate. -/
def getDefaultNicCounters (per_nic : List (String × NetCounters))
    (default_nic : String) : NetCounters :=
  match List.lookup default_nic per_nic with
  | some c => c
  | none => netIoTotal per_nic

/-- The transport kinds `_get_connection_counts` distinguishes:
`SOCK_STREAM`, `SOCK_DGRAM`, and anything else (counted nowhere). -/
inductive SockType where
  | tcp
  | udp
  | otherKind
  deriving DecidableEq

/-- One entry of `psutil.net_connections(kind="inet")` as consumed by
`_get_connection_counts`: the local address (absent connections are
skipped) and the transport kind. -/
structure ConnEntry where
  laddr : Option String
  ctype : SockType
  deriving DecidableEq

/-- A `(tcp, udp)` counter pair, one dict value of the result. -/
structure ConnCount where
  tcp : ℕ
  udp : ℕ
  deriving DecidableEq

/-- Python dict assignment `m[k] = v` on an insertion-ordered association
list: update in place when present, append otherwise. -/
def dictSet : List (String × ConnCount) → String → ConnCount → List (String × ConnCount)
  | [], k, v => [(k, v)]
  | (k', v') :: rest, k, v =>
    if k' = k then (k', v) :: rest else (k', v') :: dictSet rest k v

/-- Python `m[k]["tcp"] += 1` on the association list. -/
def bumpTcp : List (String × ConnCount) → String → List (String × ConnCount)
  | [], _ => []
  | (k', v) :: rest, k =>
    if k' = k then (k', ⟨v.tcp + 1, v.udp⟩) :: rest else (k', v) :: bumpTcp rest k

/-- Python `m[k]["udp"] += 1` on the association list. -/
def bumpUdp : List (String × ConnCount) → String → List (String × ConnCount)
  | [], _ => []
  | (k', v) :: rest, k =>
    if k' = k then (k', ⟨v.tcp, v.udp + 1⟩) :: rest else (k', v) :: bumpUdp rest k

/-- Body of the connection loop of `_get_connection_counts` (src/app.py
lines 298-312): skip entries without a local address, resolve the interface
through the IP map with fallback `"other"`, create the dict entry if absent
and bump the matching per-interface and running total counters. -/
def connStep (ipToIface : String → Option String)
    (acc : List (String × ConnCount) × ℕ × ℕ) (c : ConnEntry) :
    List (String × ConnCount) × ℕ × ℕ :=
  match c.laddr with
  | none => acc
  | some ip =>
    let iface := (ipToIface ip).getD "other"
    let m := if (List.lookup iface acc.1).isSome then acc.1 else dictSet acc.1 iface ⟨0, 0⟩
    match c.ctype with
    | .tcp => (bumpTcp m iface, acc.2.1 + 1, acc.2.2)
    | .udp => (bumpUdp m iface, acc.2.1, acc.2.2 + 1)
    | .otherKind => (m, acc.2.1, acc.2.2)

/-- `_get_connection_counts` (src/app.py lines 280-315).  The IP-to-interface
reverse map built from `psutil.net_if_addrs()` is passed as a lookup
function; `psutil.net_connections` is an `Except` where `.error` stands for
`AccessDenied` / `OSError`, in which case the bare Total dict is returned.
On success the per-interface counts are folded up and the `"Total"` entry is
written last. -/
def getConnectionCounts (ipToIface : String → Option String)
    (conns : Except Unit (List ConnEntry)) : List (String × ConnCount) :=
  match conns with
  | .error _ => [("Total", ⟨0, 0⟩)]
  | .ok cs =>
    let r := cs.foldl (connStep ipToIface) ([], 0, 0)
    dictSet r.1 "Total" ⟨r.2.1, r.2.2⟩

/-- Statement apparatus: the sum of the tcp counts of a result dict. -/
def sumTcp (m : List (String × ConnCount)) : ℕ := (m.map fun p => p.2.tcp).sum

/-- Statement apparatus: the sum of the udp counts of a result dict. -/
def sumUdp (m : List (String × ConnCount)) : ℕ := (m.map fun p => p.2.udp).sum

/-- One element of the `data` array built by `get_metrics` (src/app.py lines
775-788 raw, 815-828 aggregated).  `conns` / `extra` keep the JSON text; the
aggregated path may carry no payload (`none` models SQL NULL, projected by
Python to an empty dict). -/
structure Point where
  t : ℚ
  cpu : ℚ
  ram : ℚ
  ram_used : ℚ
  ram_total : ℚ
  disk : ℚ
  disk_used : ℚ
  disk_total : ℚ
  net_sent : ℚ
  net_recv : ℚ
  conns : Option String
  extra : Option String
  deriving DecidableEq

/-- The response body of `get_metrics`: the data points and the range
totals in GB. -/
structure QueryResult where
  data : List Point
  sent_gb : ℚ
  recv_gb : ℚ
  deriving DecidableEq

/-- `RANGE_MAP` (src/app.py lines 745-754) combined with the
`RANGE_MAP.get(range, (3600, None))` default of line 760: window seconds and
optional aggregation bucket seconds per range key. -/
def RANGE_MAP : String → ℤ × Option ℤ
  | "1h" => (3600, none)
  | "2h" => (7200, none)
  | "6h" => (21600, some 30)
  | "12h" => (43200, some 60)
  | "1d" => (86400, some 120)
  | "2d" => (172800, some 300)
  | "1w" => (604800, some 900)
  | "1m" => (2592000, some 3600)
  | _ => (3600, none)

/-- SQLite `AVG` over a group: sum divided by count. -/
def mean (xs : List ℚ) : ℚ := xs.sum / (xs.length : ℚ)

/-- SQLite `MAX` over a (nonempty) group of rationals. -/
def maxD : List ℚ → ℚ
  | [] => 0
  | x :: xs => xs.foldl max x

/-- The correlated subquery `ORDER BY m2.timestamp DESC LIMIT 1` (src/app.py
lines 803-808): the latest row of a bucket.  SQLite leaves the choice among
equal timestamps open; this model keeps the first row carrying the maximal
timestamp in table order. -/
def latestSample : List Sample → Option Sample
  | [] => none
  | s :: rest =>
    some (rest.foldl (fun acc x => if acc.timestamp < x.timestamp then x else acc) s)

/-- `CAST(timestamp / bucket AS INTEGER)`, the SQL bucket index of a
timestamp. -/
def bucketOf (B : ℤ) (ts : ℚ) : ℤ := sqlCastInt (ts / (B : ℚ))

/-- One SELECT output row of the aggregated query for bucket index `k`:
AVG over the group of cutoff-filtered rows in the bucket (Python-rounded for
display as in src/app.py lines 815-828), MAX for the total-GB columns, and
the two correlated subqueries picking the latest same-bucket row of the
whole table. -/
def aggPointAt (table filtered : List Sample) (B : ℤ) (k : ℤ) : Point :=
  let g := filtered.filter fun s => decide (bucketOf B s.timestamp = k)
  let latest := latestSample (table.filter fun s => decide (bucketOf B s.timestamp = k))
  { t := ((k * B : ℤ) : ℚ)
    cpu := pyRound 1 (mean (g.map (·.cpu_percent)))
    ram := pyRound 1 (mean (g.map (·.ram_percent)))
    ram_used := pyRound 2 (mean (g.map (·.ram_used_gb)))
    ram_total := maxD (g.map (·.ram_total_gb))
    disk := pyRound 1 (mean (g.map (·.disk_percent)))
    disk_used := pyRound 2 (mean (g.map (·.disk_used_gb)))
    disk_total := maxD (g.map (·.disk_total_gb))
    net_sent := (pyRoundInt (mean (g.map (·.net_sent_rate))) : ℚ)
    net_recv := (pyRoundInt (mean (g.map (·.net_recv_rate))) : ℚ)
    conns := latest.map (·.conn_json)
    extra := latest.map (·.extra_json) }

/-- The aggregated branch of `get_metrics` (src/app.py lines 789-828): group
the rows at or after the cutoff by `CAST(timestamp/B AS INTEGER)`, emitting
one `aggPointAt` row per nonempty bucket in ascending `bucket_ts` order;
the correlated payload subquery scans the whole table, not the
cutoff-filtered rows. -/
def aggPoints (table : List Sample) (B : ℤ) (cutoff : ℚ) : List Point :=
  let filtered := table.filter fun s => decide (cutoff ≤ s.timestamp)
  ((filtered.map fun s => bucketOf B s.timestamp).toFinset.sort (· ≤ ·)).map
    (aggPointAt table filtered B)

/-- The raw branch of `get_metrics` (src/app.py lines 764-788): every row at
or after the cutoff, ascending by timestamp, projected to the point shape. -/
def rawPoints (table : List Sample) (cutoff : ℚ) : List Point :=
  ((table.filter fun s => decide (cutoff ≤ s.timestamp)).mergeSort
      fun a b => decide (a.timestamp ≤ b.timestamp)).map fun s =>
    { t := s.timestamp
      cpu := s.cpu_percent
      ram := s.ram_percent
      ram_used := s.ram_used_gb
      ram_total := s.ram_total_gb
      disk := s.disk_percent
      disk_used := s.disk_used_gb
      disk_total := s.disk_total_gb
      net_sent := s.net_sent_rate
      net_recv := s.net_recv_rate
      conns := some s.conn_json
      extra := some s.extra_json }

/-- src/app.py line 832: `interval_sec = bucket if bucket else
COLLECT_INTERVAL`, with Python truthiness on the optional bucket. -/
def rangeInterval (bucket : Option ℤ) : ℤ :=
  match bucket with
  | some b => if b = 0 then COLLECT_INTERVAL else b
  | none => COLLECT_INTERVAL

/-- `get_metrics` (src/app.py lines 757-841): select the policy for the range
key, build the raw or aggregated data points over the retained rows, and
attach the range totals `round(sum(rate) * interval / 1024^3, 2)`. -/
def getMetrics (table : List Sample) (now : ℚ) (rangeKey : String) : QueryResult :=
  let policy := RANGE_MAP rangeKey
  let cutoff := now - (policy.1 : ℚ)
  let data :=
    match policy.2 with
    | none => rawPoints table cutoff
    | some b => aggPoints table b cutoff
  let interval := rangeInterval policy.2
  { data := data
    sent_gb := pyRound 2 ((data.map (·.net_sent)).sum * (interval : ℚ) / 1024 ^ 3)
    recv_gb := pyRound 2 ((data.map (·.net_recv)).sum * (interval : ℚ) / 1024 ^ 3) }

/-- Statement apparatus for the aggregation claims: the Samples of bucket `k`
contributing to a query with cutoff `cutoff` and bucket size `B`, i.e. the
stored Samples inside the window whose `⌊timestamp / B⌋` equals `k`. -/
def bucketGroup (table : List Sample) (cutoff : ℚ) (B k : ℤ) : List Sample :=
  table.filter fun s => decide (cutoff ≤ s.timestamp) && decide (⌊s.timestamp / (B : ℚ)⌋ = k)

/-- Concrete witness data: a stored Sample at a given timestamp. -/
def wSample (ts : ℚ) (tag : String) : Sample :=
  ⟨ts, 50, 40, 4, 16, 60, 100, 200, 7, 8, 1000, 2000, tag, tag⟩

/-- Concrete witness data: three Samples, two sharing bucket 0 for a
30-second bucket and one in bucket 1. -/
def wTable : List Sample := [wSample 10 "a", wSample 20 "b", wSample 45 "c"]

/-- The body of one Sampler tick as the loop sees it: `_collect` either
succeeds or raises (src/app.py lines 121-124). -/
def tickCollect (raises : Bool) : Except String Unit :=
  if raises then Except.error "Collector Error" else Except.ok ()

/-- `MetricsCollector._run` (src/app.py lines 119-125), fuel-indexed: while
the running flag (read per iteration as `running i`) holds, run the tick —
catching and logging a raising `_collect` — then proceed to the next tick;
on a cleared flag return the exit tick index and the log.  `none` means the
fuel ran out with the loop still running. -/
def runSampler (running raises : ℕ → Bool) :
    ℕ → ℕ → List String → Option ℕ × List String
  | 0, _, log => (none, log)
  | fuel + 1, i, log =>
    if running i then
      match tickCollect (raises i) with
      | .ok _ => runSampler running raises fuel (i + 1) log
      | .error e => runSampler running raises fuel (i + 1) (log ++ [e])
    else (some i, log)

/-! ## Helper lemmas -/

theorem pyRoundInt_intCast (n : ℤ) : pyRoundInt (n : ℚ) = n := by
  unfold pyRoundInt
  rw [Int.floor_intCast]
  norm_num

theorem pyRoundInt_eq_of_intCast {q : ℚ} {n : ℤ} (h : q = (n : ℚ)) : pyRoundInt q = n := by
  rw [h, pyRoundInt_intCast]

theorem pyRoundInt_zero : pyRoundInt 0 = 0 := by
  have := pyRoundInt_intCast 0
  simpa using this

theorem capRate_nonneg (r : ℤ) : 0 ≤ capRate r := by
  unfold capRate MAX_RATE
  split <;> omega

theorem capRate_le (r : ℤ) : capRate r ≤ MAX_RATE := by
  unfold capRate MAX_RATE
  split <;> omega

theorem capRate_over {r : ℤ} (h : r < 0 ∨ MAX_RATE < r) : capRate r = 0 := by
  unfold capRate
  exact if_pos h.symm

theorem lookup_map_pairs {β γ : Type} (k : String) (f : String → β → γ) :
    ∀ l : List (String × β),
      List.lookup k (l.map fun p => (p.1, f p.1 p.2)) = (List.lookup k l).map fun v => f k v := by
  intro l
  induction l with
  | nil => rfl
  | cons a rest ih =>
    simp only [List.map_cons, List.lookup]
    cases h : k == a.1 with
    | true =>
      have : k = a.1 := eq_of_beq h
      subst this
      rfl
    | false => simpa using ih

/-! ## Claim theorems -/

/-- C2: every Sample a collector tick persists carries default-NIC rates in
the closed interval [0, MAX_RATE]; whenever the pre-clamp rate computed for
the tick is negative or exceeds MAX_RATE, the stored value is exactly 0. -/
theorem collect_rate_capped (st : CollectorState) (inp : CollectInput) :
    (0 ≤ (collect st inp).2.net_sent_rate ∧ (collect st inp).2.net_sent_rate ≤ (MAX_RATE : ℚ)) ∧
    (0 ≤ (collect st inp).2.net_recv_rate ∧ (collect st inp).2.net_recv_rate ≤ (MAX_RATE : ℚ)) ∧
    (rawNetRate st.prev_net.bytes_sent inp.net.bytes_sent (inp.now - st.prev_time) < 0 ∨
        MAX_RATE < rawNetRate st.prev_net.bytes_sent inp.net.bytes_sent (inp.now - st.prev_time) →
      (collect st inp).2.net_sent_rate = 0) ∧
    (rawNetRate st.prev_net.bytes_recv inp.net.bytes_recv (inp.now - st.prev_time) < 0 ∨
        MAX_RATE < rawNetRate st.prev_net.bytes_recv inp.net.bytes_recv (inp.now - st.prev_time) →
      (collect st inp).2.net_recv_rate = 0) := by
  have hs : (collect st inp).2.net_sent_rate =
      ((capRate (rawNetRate st.prev_net.bytes_sent inp.net.bytes_sent
        (inp.now - st.prev_time)) : ℤ) : ℚ) := rfl
  have hr : (collect st inp).2.net_recv_rate =
      ((capRate (rawNetRate st.prev_net.bytes_recv inp.net.bytes_recv
        (inp.now - st.prev_time)) : ℤ) : ℚ) := rfl
  rw [hs, hr]
  refine ⟨⟨?_, ?_⟩, ⟨?_, ?_⟩, ?_, ?_⟩
  · exact_mod_cast capRate_nonneg _
  · exact_mod_cast capRate_le _
  · exact_mod_cast capRate_nonneg _
  · exact_mod_cast capRate_le _
  · intro h
    rw [capRate_over h]
    norm_num
  · intro h
    rw [capRate_over h]
    norm_num

theorem collect_rate_capped_witness :
    (rawNetRate ((0 : ℚ)) ((1000000000 : ℚ)) ((1 : ℚ) - 0) < 0 ∨
        MAX_RATE < rawNetRate ((0 : ℚ)) ((1000000000 : ℚ)) ((1 : ℚ) - 0)) ∧
    (collect ⟨⟨0, 0, 0, 0⟩, 0⟩
        ⟨1, 50, 40, 0, 0, 50, 0, 0, ⟨1000000000, 0, 0, 0⟩, "c", "e"⟩).2.net_sent_rate = 0 := by
  have hval : rawNetRate ((0 : ℚ)) ((1000000000 : ℚ)) ((1 : ℚ) - 0) = 1000000000 := by
    unfold rawNetRate
    rw [if_pos (by norm_num)]
    exact pyRoundInt_eq_of_intCast (by norm_num)
  have hover : rawNetRate ((0 : ℚ)) ((1000000000 : ℚ)) ((1 : ℚ) - 0) < 0 ∨
      MAX_RATE < rawNetRate ((0 : ℚ)) ((1000000000 : ℚ)) ((1 : ℚ) - 0) := by
    rw [hval]
    unfold MAX_RATE
    omega
  exact ⟨hover,
    (collect_rate_capped ⟨⟨0, 0, 0, 0⟩, 0⟩
      ⟨1, 50, 40, 0, 0, 50, 0, 0, ⟨1000000000, 0, 0, 0⟩, "c", "e"⟩).2.2.1 hover⟩

/-- C10: when the cached default interface is absent from the per-NIC
counter dict, `_get_default_nic_counters` falls back to the system-wide
aggregate counters summed over all interfaces. -/
theorem default_nic_counters_fallback (per_nic : List (String × NetCounters)) (nic : String)
    (h : List.lookup nic per_nic = none) :
    getDefaultNicCounters per_nic nic = netIoTotal per_nic := by
  unfold getDefaultNicCounters
  rw [h]

theorem default_nic_counters_fallback_witness :
    List.lookup "wlan0" [("eth0", (⟨5, 6, 7, 8⟩ : NetCounters))] = none ∧
    getDefaultNicCounters [("eth0", (⟨5, 6, 7, 8⟩ : NetCounters))] "wlan0" =
      netIoTotal [("eth0", (⟨5, 6, 7, 8⟩ : NetCounters))] :=
  ⟨by decide, default_nic_counters_fallback _ _ (by decide)⟩

/-- C5: a tracker call for a key with no recorded previous state returns
zero for every derived rate and still records the new snapshot as the
baseline: the all-interfaces tracker yields the zero speed entry for a NIC
absent from `_prev_all` while replacing the whole baseline, and the disk
tracker with no baseline counters (construction found none) returns all-zero
rates and records the fresh snapshot; no division by an absent previous
value happens. -/
theorem tracker_first_call_zero :
    (∀ (st : NetTrackerState) (now : ℚ) (cur_all : List (String × NetCounters))
        (nic : String) (cur : NetCounters),
        List.lookup nic st.prev_all = none →
        List.lookup nic cur_all = some cur →
        List.lookup nic (netGetSpeed st now cur_all).2 = some (zeroSpeed cur) ∧
        (netGetSpeed st now cur_all).1 = ⟨cur_all, now⟩) ∧
    (∀ (t0 now : ℚ) (disk : Option DiskCounters),
        diskGetSpeed (diskInit none t0) now disk =
          (⟨disk, now, 0, 0, 0, 0⟩, ⟨0, 0, 0, 0⟩)) := by
  constructor
  · intro st now cur_all nic cur hprev hcur
    constructor
    · show List.lookup nic (cur_all.map fun p => (p.1, nicSpeedOf st.prev_all (now - st.prev_time) p.1 p.2)) = _
      rw [lookup_map_pairs, hcur]
      simp [nicSpeedOf, hprev]
    · rfl
  · intro t0 now disk
    cases disk <;> simp [diskGetSpeed, diskInit, pyRoundInt_zero]

theorem tracker_first_call_zero_witness :
    List.lookup "eth0" (([] : List (String × NetCounters))) = none ∧
    List.lookup "eth0" [("eth0", (⟨1, 2, 3, 4⟩ : NetCounters))] = some ⟨1, 2, 3, 4⟩ ∧
    (List.lookup "eth0" (netGetSpeed ⟨[], 0⟩ 5 [("eth0", ⟨1, 2, 3, 4⟩)]).2 =
        some (zeroSpeed ⟨1, 2, 3, 4⟩) ∧
      (netGetSpeed ⟨[], 0⟩ 5 [("eth0", ⟨1, 2, 3, 4⟩)]).1 = ⟨[("eth0", ⟨1, 2, 3, 4⟩)], 5⟩) ∧
    diskGetSpeed (diskInit none 0) 5 (some ⟨9, 9, 9, 9⟩) =
      (⟨some ⟨9, 9, 9, 9⟩, 5, 0, 0, 0, 0⟩, ⟨0, 0, 0, 0⟩) :=
  ⟨by decide, by decide,
    tracker_first_call_zero.1 ⟨[], 0⟩ 5 [("eth0", ⟨1, 2, 3, 4⟩)] "eth0" ⟨1, 2, 3, 4⟩
      (by decide) (by decide),
    tracker_first_call_zero.2 0 5 (some ⟨9, 9, 9, 9⟩)⟩

/-- C4 counterexample: a disk tracker update with elapsed = 0 does NOT
return zero rates — it returns the previously stored rate (here 100
bytes/sec) — refuting "returns 0 for every derived rate field" for the disk
tracker. -/
theorem disk_tracker_stale_rate :
    ((10 : ℚ) - (⟨some ⟨0, 0, 0, 0⟩, 10, 100, 0, 0, 0⟩ : DiskTrackerState).prev_time ≤ 0) ∧
    (diskGetSpeed ⟨some ⟨0, 0, 0, 0⟩, 10, 100, 0, 0, 0⟩ 10 (some ⟨0, 0, 0, 0⟩)).2.read_bps = 100 ∧
    (100 : ℤ) ≠ 0 := by
  refine ⟨by norm_num, ?_, by norm_num⟩
  simp only [diskGetSpeed]
  rw [if_neg (by norm_num : ¬ ((0 : ℚ) < 10 - 10))]
  exact pyRoundInt_eq_of_intCast (by norm_num)

/-- C4 amended: an update with elapsed ≤ 0 replaces every tracker's stored
previous counters and timestamp with the new snapshot; the collector and the
all-interfaces tracker then report zero rates, while the disk tracker leaves
its stored rate fields untouched and returns the previously computed rates
(zero only when none were ever computed). -/
theorem elapsed_nonpos_state_advances :
    (∀ (st : CollectorState) (inp : CollectInput), inp.now - st.prev_time ≤ 0 →
        (collect st inp).2.net_sent_rate = 0 ∧ (collect st inp).2.net_recv_rate = 0 ∧
        (collect st inp).1 = ⟨inp.net, inp.now⟩) ∧
    (∀ (st : NetTrackerState) (now : ℚ) (cur_all : List (String × NetCounters)),
        now - st.prev_time ≤ 0 →
        (netGetSpeed st now cur_all).2 = cur_all.map (fun p => (p.1, zeroSpeed p.2)) ∧
        (netGetSpeed st now cur_all).1 = ⟨cur_all, now⟩) ∧
    (∀ (st : DiskTrackerState) (now : ℚ) (disk : Option DiskCounters),
        now - st.prev_time ≤ 0 →
        diskGetSpeed st now disk =
          ({ st with prev_disk := disk, prev_time := now },
           ⟨pyRoundInt st.read_bps, pyRoundInt st.write_bps,
            pyRoundInt st.read_iops, pyRoundInt st.write_iops⟩)) := by
  refine ⟨?_, ?_, ?_⟩
  · intro st inp h
    have hz : ∀ p c : ℚ, rawNetRate p c (inp.now - st.prev_time) = 0 := by
      intro p c
      unfold rawNetRate
      rw [if_neg (not_lt.mpr h)]
    refine ⟨?_, ?_, rfl⟩
    · show ((capRate (rawNetRate st.prev_net.bytes_sent inp.net.bytes_sent _) : ℤ) : ℚ) = 0
      rw [hz]
      norm_num [capRate, MAX_RATE]
    · show ((capRate (rawNetRate st.prev_net.bytes_recv inp.net.bytes_recv _) : ℤ) : ℚ) = 0
      rw [hz]
      norm_num [capRate, MAX_RATE]
  · intro st now cur_all h
    refine ⟨?_, rfl⟩
    show cur_all.map (fun p => (p.1, nicSpeedOf st.prev_all (now - st.prev_time) p.1 p.2)) = _
    refine List.map_congr_left fun p _ => ?_
    unfold nicSpeedOf
    cases List.lookup p.1 st.prev_all with
    | none => rfl
    | some prev => simp [h]
  · intro st now disk h
    unfold diskGetSpeed
    cases disk with
    | none => cases st.prev_disk <;> rfl
    | some d =>
      cases hp : st.prev_disk with
      | none => rfl
      | some p => simp [not_lt.mpr h]

theorem elapsed_nonpos_state_advances_witness :
    ((5 : ℚ) - 10 ≤ 0) ∧
    ((collect ⟨⟨0, 0, 0, 0⟩, 10⟩ ⟨5, 1, 2, 3, 4, 5, 6, 7, ⟨8, 9, 10, 11⟩, "c", "e"⟩).2.net_sent_rate = 0 ∧
      (collect ⟨⟨0, 0, 0, 0⟩, 10⟩ ⟨5, 1, 2, 3, 4, 5, 6, 7, ⟨8, 9, 10, 11⟩, "c", "e"⟩).2.net_recv_rate = 0 ∧
      (collect ⟨⟨0, 0, 0, 0⟩, 10⟩ ⟨5, 1, 2, 3, 4, 5, 6, 7, ⟨8, 9, 10, 11⟩, "c", "e"⟩).1 = ⟨⟨8, 9, 10, 11⟩, 5⟩) ∧
    ((netGetSpeed ⟨[("eth0", ⟨1, 1, 1, 1⟩)], 10⟩ 5 [("eth0", ⟨2, 2, 2, 2⟩)]).2 =
        [("eth0", ⟨2, 2, 2, 2⟩)].map (fun p => (p.1, zeroSpeed p.2)) ∧
      (netGetSpeed ⟨[("eth0", ⟨1, 1, 1, 1⟩)], 10⟩ 5 [("eth0", ⟨2, 2, 2, 2⟩)]).1 =
        ⟨[("eth0", ⟨2, 2, 2, 2⟩)], 5⟩) ∧
    diskGetSpeed ⟨none, 10, 7, 8, 9, 11⟩ 5 none =
      ({ (⟨none, 10, 7, 8, 9, 11⟩ : DiskTrackerState) with prev_disk := none, prev_time := 5 },
       ⟨pyRoundInt 7, pyRoundInt 8, pyRoundInt 9, pyRoundInt 11⟩) :=
  ⟨by norm_num,
    elapsed_nonpos_state_advances.1 ⟨⟨0, 0, 0, 0⟩, 10⟩
      ⟨5, 1, 2, 3, 4, 5, 6, 7, ⟨8, 9, 10, 11⟩, "c", "e"⟩ (by norm_num),
    elapsed_nonpos_state_advances.2.1 ⟨[("eth0", ⟨1, 1, 1, 1⟩)], 10⟩ 5
      [("eth0", ⟨2, 2, 2, 2⟩)] (by norm_num),
    elapsed_nonpos_state_advances.2.2 ⟨none, 10, 7, 8, 9, 11⟩ 5 none (by norm_num)⟩

/-- C3 counterexample: on a counter reset (current counter below the
previous one) with positive elapsed time, the all-interfaces tracker returns
a negative sent rate — and the byte-counter rates are reported in bits/sec
(×8) — refuting the claimed clamp of each returned rate into [0, ∞). -/
theorem net_tracker_negative_rate :
    List.lookup "eth0"
        (netGetSpeed ⟨[("eth0", ⟨1000, 1000, 10, 10⟩)], 0⟩ 1 [("eth0", ⟨0, 0, 0, 0⟩)]).2 =
      some ⟨-8000, -8000, -10, -10, 0, 0⟩ ∧ (-8000 : ℤ) < 0 := by
  refine ⟨?_, by norm_num⟩
  show List.lookup "eth0"
      ([("eth0", (⟨0, 0, 0, 0⟩ : NetCounters))].map fun p =>
        (p.1, nicSpeedOf [("eth0", ⟨1000, 1000, 10, 10⟩)] ((1 : ℚ) - 0) p.1 p.2)) = _
  rw [lookup_map_pairs]
  have h1 : List.lookup "eth0" [("eth0", (⟨0, 0, 0, 0⟩ : NetCounters))] = some ⟨0, 0, 0, 0⟩ := by
    decide
  rw [h1]
  have h2 : List.lookup "eth0" [("eth0", (⟨1000, 1000, 10, 10⟩ : NetCounters))] =
      some ⟨1000, 1000, 10, 10⟩ := by decide
  simp only [Option.map_some', nicSpeedOf, h2]
  rw [if_neg (by norm_num : ¬ ((1 : ℚ) - 0 ≤ 0))]
  simp only [Option.some.injEq, NicSpeed.mk.injEq]
  exact ⟨pyRoundInt_eq_of_intCast (by norm_num), pyRoundInt_eq_of_intCast (by norm_num),
    pyRoundInt_eq_of_intCast (by norm_num), pyRoundInt_eq_of_intCast (by norm_num),
    by norm_num, by norm_num⟩

/-- C3 amended: for a NIC with a recorded baseline and positive elapsed
time, the all-interfaces tracker returns byte rates equal to
round((cur − prev)/elapsed × 8) — bits per second — and packet rates
round((cur − prev)/elapsed), with only the no-baseline / non-positive
elapsed guards and no sign or ceiling clamp, so a negative delta yields a
negative rate. -/
theorem net_tracker_rate_formula (st : NetTrackerState) (now : ℚ)
    (cur_all : List (String × NetCounters)) (nic : String) (prev cur : NetCounters)
    (hprev : List.lookup nic st.prev_all = some prev)
    (hcur : List.lookup nic cur_all = some cur)
    (hel : 0 < now - st.prev_time) :
    List.lookup nic (netGetSpeed st now cur_all).2 =
      some { sent_bps := pyRoundInt ((cur.bytes_sent - prev.bytes_sent) / (now - st.prev_time) * 8)
             recv_bps := pyRoundInt ((cur.bytes_recv - prev.bytes_recv) / (now - st.prev_time) * 8)
             sent_pps := pyRoundInt ((cur.packets_sent - prev.packets_sent) / (now - st.prev_time))
             recv_pps := pyRoundInt ((cur.packets_recv - prev.packets_recv) / (now - st.prev_time))
             sent_total := cur.bytes_sent
             recv_total := cur.bytes_recv } := by
  show List.lookup nic
      (cur_all.map fun p => (p.1, nicSpeedOf st.prev_all (now - st.prev_time) p.1 p.2)) = _
  rw [lookup_map_pairs, hcur]
  simp only [Option.map_some', nicSpeedOf, hprev]
  rw [if_neg (not_le.mpr hel)]

theorem net_tracker_rate_formula_witness :
    List.lookup "eth0" (([("eth0", (⟨100, 200, 3, 4⟩ : NetCounters))]) : List (String × NetCounters)) =
      some ⟨100, 200, 3, 4⟩ ∧
    ((0 : ℚ) < 2 - 0) ∧
    List.lookup "eth0"
        (netGetSpeed ⟨[("eth0", ⟨100, 200, 3, 4⟩)], 0⟩ 2 [("eth0", ⟨300, 500, 7, 10⟩)]).2 =
      some { sent_bps := pyRoundInt (((300 : ℚ) - 100) / (2 - 0) * 8)
             recv_bps := pyRoundInt (((500 : ℚ) - 200) / (2 - 0) * 8)
             sent_pps := pyRoundInt (((7 : ℚ) - 3) / (2 - 0))
             recv_pps := pyRoundInt (((10 : ℚ) - 4) / (2 - 0))
             sent_total := 300
             recv_total := 500 } :=
  ⟨by decide, by norm_num,
    net_tracker_rate_formula ⟨[("eth0", ⟨100, 200, 3, 4⟩)], 0⟩ 2
      [("eth0", ⟨300, 500, 7, 10⟩)] "eth0" ⟨100, 200, 3, 4⟩ ⟨300, 500, 7, 10⟩
      (by decide) (by decide) (by norm_num)⟩

/-- C8: the Sampler loop never terminates because an exception was raised
inside a tick: the exit behaviour is independent of which ticks raise (a
raising tick is caught, logged, and the loop proceeds), an exit at tick j
happens only with the running flag cleared at j after every earlier tick ran
with the flag set, and with the flag never cleared the loop runs its whole
fuel without returning. -/
theorem sampler_loop_robust (running raises raises' : ℕ → Bool) :
    ∀ (fuel i : ℕ) (log log' : List String),
      ((runSampler running raises fuel i log).1 = (runSampler running raises' fuel i log').1) ∧
      (∀ j, (runSampler running raises fuel i log).1 = some j →
        running j = false ∧ ∀ k, i ≤ k → k < j → running k = true) ∧
      ((∀ k, i ≤ k → running k = true) → (runSampler running raises fuel i log).1 = none) := by
  intro fuel
  induction fuel with
  | zero =>
    intro i log log'
    refine ⟨rfl, ?_, fun _ => rfl⟩
    intro j h
    simp [runSampler] at h
  | succ n ih =>
    intro i log log'
    by_cases hr : running i = true
    · have red : ∀ (rs : ℕ → Bool) (lg : List String), ∃ lg',
          runSampler running rs (n + 1) i lg = runSampler running rs n (i + 1) lg' := by
        intro rs lg
        cases hb : rs i with
        | true => exact ⟨lg ++ ["Collector Error"], by simp [runSampler, hr, tickCollect, hb]⟩
        | false => exact ⟨lg, by simp [runSampler, hr, tickCollect, hb]⟩
      obtain ⟨lgA, hA⟩ := red raises log
      obtain ⟨lgB, hB⟩ := red raises' log'
      rw [hA, hB]
      refine ⟨(ih (i + 1) lgA lgB).1, ?_, ?_⟩
      · intro j h
        obtain ⟨h1, h2⟩ := (ih (i + 1) lgA lgB).2.1 j h
        refine ⟨h1, fun k hk1 hk2 => ?_⟩
        rcases Nat.eq_or_lt_of_le hk1 with he | hlt
        · exact he ▸ hr
        · exact h2 k hlt hk2
      · intro hall
        exact (ih (i + 1) lgA lgB).2.2 fun k hk => hall k (by omega)
    · have hrf : running i = false := by
        cases h : running i
        · rfl
        · exact absurd h hr
      have red : ∀ (rs : ℕ → Bool) (lg : List String),
          runSampler running rs (n + 1) i lg = (some i, lg) := by
        intro rs lg
        simp [runSampler, hrf]
      rw [red raises log, red raises' log']
      refine ⟨rfl, ?_, ?_⟩
      · intro j h
        have hj : j = i := by simpa using h.symm
        subst hj
        exact ⟨hrf, fun k hk1 hk2 => by omega⟩
      · intro hall
        exact absurd (hall i (le_refl i)) (by simp [hrf])

theorem sampler_loop_robust_witness :
    (runSampler (fun _ => true) (fun n => n == 0) 7 0 []).1 = none :=
  (sampler_loop_robust (fun _ => true) (fun n => n == 0) (fun _ => false) 7 0 [] []).2.2
    (fun _ _ => rfl)

theorem lookup_dictSet_self (k : String) (v : ConnCount) :
    ∀ m : List (String × ConnCount), List.lookup k (dictSet m k v) = some v := by
  intro m
  induction m with
  | nil => simp [dictSet, List.lookup]
  | cons a rest ih =>
    by_cases h : a.1 = k
    · simp [dictSet, h, List.lookup]
    · have hb : (k == a.1) = false := beq_eq_false_iff_ne.mpr (Ne.symm h)
      simp [dictSet, h, List.lookup, hb, ih]

theorem lookup_dictSet_ne {k' k : String} (hne : k' ≠ k) (v : ConnCount) :
    ∀ m : List (String × ConnCount), List.lookup k' (dictSet m k v) = List.lookup k' m := by
  intro m
  induction m with
  | nil =>
    simp [dictSet, List.lookup, beq_eq_false_iff_ne.mpr hne]
  | cons a rest ih =>
    by_cases h : a.1 = k
    · subst h
      simp [dictSet, List.lookup, beq_eq_false_iff_ne.mpr hne]
    · simp [dictSet, h, List.lookup]
      cases hb : (k' == a.1)
      · simpa [hb] using ih
      · simp

theorem dictSet_of_lookup_none {k : String} {v : ConnCount} :
    ∀ {m : List (String × ConnCount)}, List.lookup k m = none →
      dictSet m k v = m ++ [(k, v)] := by
  intro m
  induction m with
  | nil => intro _; rfl
  | cons a rest ih =>
    intro h
    simp only [List.lookup] at h
    cases hb : (k == a.1) with
    | true => rw [hb] at h; exact absurd h (by simp)
    | false =>
      rw [hb] at h
      have hne : a.1 ≠ k := fun he => by simp [he] at hb
      simp [dictSet, hne, ih h]

theorem lookup_cons_eq {β : Type} (k : String) (v : β) (rest : List (String × β)) :
    List.lookup k ((k, v) :: rest) = some v := by
  simp [List.lookup]

theorem lookup_cons_ne {β : Type} {k a : String} (hne : ¬k = a) (v : β)
    (rest : List (String × β)) :
    List.lookup k ((a, v) :: rest) = List.lookup k rest := by
  simp [List.lookup, beq_eq_false_iff_ne.mpr hne]

theorem lookup_bumpTcp_none {k' k : String} :
    ∀ {m : List (String × ConnCount)}, List.lookup k' m = none →
      List.lookup k' (bumpTcp m k) = none := by
  intro m
  induction m with
  | nil => intro _; rfl
  | cons a rest ih =>
    intro h
    obtain ⟨a1, a2⟩ := a
    by_cases hka : k' = a1
    · subst hka
      rw [lookup_cons_eq] at h
      cases h
    · rw [lookup_cons_ne hka] at h
      by_cases he : a1 = k
      · simp only [bumpTcp, if_pos he]
        rw [lookup_cons_ne hka]
        exact h
      · simp only [bumpTcp, if_neg he]
        rw [lookup_cons_ne hka]
        exact ih h

theorem lookup_bumpUdp_none {k' k : String} :
    ∀ {m : List (String × ConnCount)}, List.lookup k' m = none →
      List.lookup k' (bumpUdp m k) = none := by
  intro m
  induction m with
  | nil => intro _; rfl
  | cons a rest ih =>
    intro h
    obtain ⟨a1, a2⟩ := a
    by_cases hka : k' = a1
    · subst hka
      rw [lookup_cons_eq] at h
      cases h
    · rw [lookup_cons_ne hka] at h
      by_cases he : a1 = k
      · simp only [bumpUdp, if_pos he]
        rw [lookup_cons_ne hka]
        exact h
      · simp only [bumpUdp, if_neg he]
        rw [lookup_cons_ne hka]
        exact ih h

theorem sumTcp_bumpTcp {k : String} :
    ∀ {m : List (String × ConnCount)}, (List.lookup k m).isSome →
      sumTcp (bumpTcp m k) = sumTcp m + 1 := by
  intro m
  induction m with
  | nil => intro h; simp [List.lookup] at h
  | cons a rest ih =>
    intro h
    obtain ⟨a1, a2⟩ := a
    by_cases he : a1 = k
    · simp only [bumpTcp, if_pos he]
      simp [sumTcp]
      omega
    · have hk : ¬k = a1 := fun hc => he hc.symm
      rw [lookup_cons_ne hk] at h
      simp only [bumpTcp, if_neg he]
      have := ih h
      simp only [sumTcp, List.map_cons, List.sum_cons] at this ⊢
      omega

theorem sumUdp_bumpTcp (k : String) :
    ∀ m : List (String × ConnCount), sumUdp (bumpTcp m k) = sumUdp m := by
  intro m
  induction m with
  | nil => rfl
  | cons a rest ih =>
    obtain ⟨a1, a2⟩ := a
    by_cases he : a1 = k
    · simp only [bumpTcp, if_pos he]
      simp [sumUdp]
    · simp only [bumpTcp, if_neg he]
      simp only [sumUdp, List.map_cons, List.sum_cons] at ih ⊢
      omega

theorem sumUdp_bumpUdp {k : String} :
    ∀ {m : List (String × ConnCount)}, (List.lookup k m).isSome →
      sumUdp (bumpUdp m k) = sumUdp m + 1 := by
  intro m
  induction m with
  | nil => intro h; simp [List.lookup] at h
  | cons a rest ih =>
    intro h
    obtain ⟨a1, a2⟩ := a
    by_cases he : a1 = k
    · simp only [bumpUdp, if_pos he]
      simp [sumUdp]
      omega
    · have hk : ¬k = a1 := fun hc => he hc.symm
      rw [lookup_cons_ne hk] at h
      simp only [bumpUdp, if_neg he]
      have := ih h
      simp only [sumUdp, List.map_cons, List.sum_cons] at this ⊢
      omega

theorem sumTcp_bumpUdp (k : String) :
    ∀ m : List (String × ConnCount), sumTcp (bumpUdp m k) = sumTcp m := by
  intro m
  induction m with
  | nil => rfl
  | cons a rest ih =>
    obtain ⟨a1, a2⟩ := a
    by_cases he : a1 = k
    · simp only [bumpUdp, if_pos he]
      simp [sumTcp]
    · simp only [bumpUdp, if_neg he]
      simp only [sumTcp, List.map_cons, List.sum_cons] at ih ⊢
      omega

theorem lookup_none_keys {k : String} :
    ∀ {m : List (String × ConnCount)}, List.lookup k m = none → ∀ p ∈ m, p.1 ≠ k := by
  intro m
  induction m with
  | nil => intro _ p hp; cases hp
  | cons a rest ih =>
    intro h p hp
    simp only [List.lookup] at h
    cases hb : (k == a.1) with
    | true => rw [hb] at h; exact absurd h (by simp)
    | false =>
      rw [hb] at h
      rcases List.mem_cons.mp hp with he | hm
      · subst he
        exact fun hc => by simp [hc] at hb
      · exact ih h p hm

/-- One connection entry preserves the fold invariant: the running totals
equal the sums over the per-interface dict and the dict has no `"Total"` key
yet. -/
theorem connStep_invariant (f : String → Option String)
    (hf : ∀ ip i, f ip = some i → i ≠ "Total")
    (acc : List (String × ConnCount) × ℕ × ℕ) (c : ConnEntry)
    (h1 : List.lookup "Total" acc.1 = none) (h2 : acc.2.1 = sumTcp acc.1)
    (h3 : acc.2.2 = sumUdp acc.1) :
    List.lookup "Total" (connStep f acc c).1 = none ∧
      (connStep f acc c).2.1 = sumTcp (connStep f acc c).1 ∧
      (connStep f acc c).2.2 = sumUdp (connStep f acc c).1 := by
  obtain ⟨laddr, ctype⟩ := c
  cases laddr with
  | none => exact ⟨h1, h2, h3⟩
  | some ip =>
    have hif : ((f ip).getD "other") ≠ "Total" := by
      cases hfp : f ip with
      | none => simp
      | some i => simpa using hf ip i hfp
    have hm1 : List.lookup "Total"
        (if (List.lookup ((f ip).getD "other") acc.1).isSome then acc.1
         else dictSet acc.1 ((f ip).getD "other") ⟨0, 0⟩) = none := by
      split
      · exact h1
      · rw [lookup_dictSet_ne (Ne.symm hif)]
        exact h1
    have hmS : (List.lookup ((f ip).getD "other")
        (if (List.lookup ((f ip).getD "other") acc.1).isSome then acc.1
         else dictSet acc.1 ((f ip).getD "other") ⟨0, 0⟩)).isSome := by
      split
      · assumption
      · rw [lookup_dictSet_self]
        rfl
    have hmT : sumTcp
        (if (List.lookup ((f ip).getD "other") acc.1).isSome then acc.1
         else dictSet acc.1 ((f ip).getD "other") ⟨0, 0⟩) = sumTcp acc.1 := by
      split
      · rfl
      · rename_i hns
        rw [dictSet_of_lookup_none (Option.not_isSome_iff_eq_none.mp hns)]
        simp [sumTcp]
    have hmU : sumUdp
        (if (List.lookup ((f ip).getD "other") acc.1).isSome then acc.1
         else dictSet acc.1 ((f ip).getD "other") ⟨0, 0⟩) = sumUdp acc.1 := by
      split
      · rfl
      · rename_i hns
        rw [dictSet_of_lookup_none (Option.not_isSome_iff_eq_none.mp hns)]
        simp [sumUdp]
    cases ctype with
    | tcp =>
      refine ⟨lookup_bumpTcp_none hm1, ?_, ?_⟩
      · show acc.2.1 + 1 = sumTcp (bumpTcp _ _)
        rw [sumTcp_bumpTcp hmS, hmT]
        omega
      · show acc.2.2 = sumUdp (bumpTcp _ _)
        rw [sumUdp_bumpTcp, hmU]
        exact h3
    | udp =>
      refine ⟨lookup_bumpUdp_none hm1, ?_, ?_⟩
      · show acc.2.1 = sumTcp (bumpUdp _ _)
        rw [sumTcp_bumpUdp, hmT]
        exact h2
      · show acc.2.2 + 1 = sumUdp (bumpUdp _ _)
        rw [sumUdp_bumpUdp hmS, hmU]
        omega
    | otherKind =>
      refine ⟨hm1, ?_, ?_⟩
      · show acc.2.1 = sumTcp (if (List.lookup ((f ip).getD "other") acc.1).isSome then acc.1
            else dictSet acc.1 ((f ip).getD "other") ⟨0, 0⟩)
        rw [hmT]
        exact h2
      · show acc.2.2 = sumUdp (if (List.lookup ((f ip).getD "other") acc.1).isSome then acc.1
            else dictSet acc.1 ((f ip).getD "other") ⟨0, 0⟩)
        rw [hmU]
        exact h3

/-- The invariant of the whole connection-count fold. -/
theorem connFold_invariant (f : String → Option String)
    (hf : ∀ ip i, f ip = some i → i ≠ "Total") :
    ∀ (cs : List ConnEntry) (acc : List (String × ConnCount) × ℕ × ℕ),
      List.lookup "Total" acc.1 = none → acc.2.1 = sumTcp acc.1 → acc.2.2 = sumUdp acc.1 →
      List.lookup "Total" (cs.foldl (connStep f) acc).1 = none ∧
        (cs.foldl (connStep f) acc).2.1 = sumTcp (cs.foldl (connStep f) acc).1 ∧
        (cs.foldl (connStep f) acc).2.2 = sumUdp (cs.foldl (connStep f) acc).1 := by
  intro cs
  induction cs with
  | nil => intro acc h1 h2 h3; exact ⟨h1, h2, h3⟩
  | cons c rest ih =>
    intro acc h1 h2 h3
    rw [List.foldl_cons]
    obtain ⟨hs1, hs2, hs3⟩ := connStep_invariant f hf acc c h1 h2 h3
    exact ih (connStep f acc c) hs1 hs2 hs3

/-- C9: when connection enumeration is denied, `_get_connection_counts`
degrades to exactly a bare zero Total dict; on success the result has a
`"Total"` entry whose tcp and udp counts are the sums of the per-interface
(including `"other"`) counts.  The interface map is assumed not to name an
interface `"Total"` (the reserved key of the result dict). -/
theorem connection_counts_spec (f : String → Option String) (cs : List ConnEntry)
    (hf : ∀ ip i, f ip = some i → i ≠ "Total") :
    getConnectionCounts f (Except.error ()) = [("Total", ⟨0, 0⟩)] ∧
    ∃ t, List.lookup "Total" (getConnectionCounts f (Except.ok cs)) = some t ∧
      t.tcp = sumTcp ((getConnectionCounts f (Except.ok cs)).filter
        fun p => decide (p.1 ≠ "Total")) ∧
      t.udp = sumUdp ((getConnectionCounts f (Except.ok cs)).filter
        fun p => decide (p.1 ≠ "Total")) := by
  refine ⟨rfl, ?_⟩
  obtain ⟨hT, hS, hU⟩ := connFold_invariant f hf cs ([], 0, 0) rfl rfl rfl
  have hout : getConnectionCounts f (Except.ok cs) =
      (cs.foldl (connStep f) ([], 0, 0)).1 ++
        [("Total", ⟨(cs.foldl (connStep f) ([], 0, 0)).2.1,
                    (cs.foldl (connStep f) ([], 0, 0)).2.2⟩)] := by
    show dictSet _ "Total" _ = _
    exact dictSet_of_lookup_none hT
  refine ⟨⟨(cs.foldl (connStep f) ([], 0, 0)).2.1,
           (cs.foldl (connStep f) ([], 0, 0)).2.2⟩, ?_, ?_, ?_⟩
  · rw [hout]
    have : ∀ m : List (String × ConnCount), List.lookup "Total" m = none →
        List.lookup "Total" (m ++ [("Total",
          (⟨(cs.foldl (connStep f) ([], 0, 0)).2.1,
            (cs.foldl (connStep f) ([], 0, 0)).2.2⟩ : ConnCount))]) =
          some ⟨(cs.foldl (connStep f) ([], 0, 0)).2.1,
                (cs.foldl (connStep f) ([], 0, 0)).2.2⟩ := by
      intro m
      induction m with
      | nil => intro _; simp [List.lookup]
      | cons a rest ih =>
        intro h
        simp only [List.lookup] at h
        cases hb : ("Total" == a.1) with
        | true => rw [hb] at h; exact absurd h (by simp)
        | false =>
          rw [hb] at h
          simpa [List.lookup, hb] using ih h
    exact this _ hT
  · rw [hout]
    have hfil : ((cs.foldl (connStep f) ([], 0, 0)).1 ++
        [("Total", (⟨(cs.foldl (connStep f) ([], 0, 0)).2.1,
                     (cs.foldl (connStep f) ([], 0, 0)).2.2⟩ : ConnCount))]).filter
          (fun p => decide (p.1 ≠ "Total")) = (cs.foldl (connStep f) ([], 0, 0)).1 := by
      rw [List.filter_append]
      have h2 : ([("Total", (⟨(cs.foldl (connStep f) ([], 0, 0)).2.1,
          (cs.foldl (connStep f) ([], 0, 0)).2.2⟩ : ConnCount))].filter
            (fun p => decide (p.1 ≠ "Total"))) = [] := by simp
      rw [h2, List.append_nil]
      refine List.filter_eq_self.mpr fun p hp => ?_
      exact decide_eq_true (lookup_none_keys hT p hp)
    rw [hfil]
    exact hS
  · rw [hout]
    have hfil : ((cs.foldl (connStep f) ([], 0, 0)).1 ++
        [("Total", (⟨(cs.foldl (connStep f) ([], 0, 0)).2.1,
                     (cs.foldl (connStep f) ([], 0, 0)).2.2⟩ : ConnCount))]).filter
          (fun p => decide (p.1 ≠ "Total")) = (cs.foldl (connStep f) ([], 0, 0)).1 := by
      rw [List.filter_append]
      have h2 : ([("Total", (⟨(cs.foldl (connStep f) ([], 0, 0)).2.1,
          (cs.foldl (connStep f) ([], 0, 0)).2.2⟩ : ConnCount))].filter
            (fun p => decide (p.1 ≠ "Total"))) = [] := by simp
      rw [h2, List.append_nil]
      refine List.filter_eq_self.mpr fun p hp => ?_
      exact decide_eq_true (lookup_none_keys hT p hp)
    rw [hfil]
    exact hU

theorem connection_counts_spec_witness :
    getConnectionCounts (fun _ => some "eth0") (Except.error ()) = [("Total", ⟨0, 0⟩)] ∧
    ∃ t, List.lookup "Total" (getConnectionCounts (fun _ => some "eth0")
        (Except.ok [⟨some "1.2.3.4", .tcp⟩, ⟨none, .tcp⟩, ⟨some "5.6.7.8", .udp⟩,
          ⟨some "9.9.9.9", .otherKind⟩])) = some t ∧
      t.tcp = sumTcp ((getConnectionCounts (fun _ => some "eth0")
        (Except.ok [⟨some "1.2.3.4", .tcp⟩, ⟨none, .tcp⟩, ⟨some "5.6.7.8", .udp⟩,
          ⟨some "9.9.9.9", .otherKind⟩])).filter fun p => decide (p.1 ≠ "Total")) ∧
      t.udp = sumUdp ((getConnectionCounts (fun _ => some "eth0")
        (Except.ok [⟨some "1.2.3.4", .tcp⟩, ⟨none, .tcp⟩, ⟨some "5.6.7.8", .udp⟩,
          ⟨some "9.9.9.9", .otherKind⟩])).filter fun p => decide (p.1 ≠ "Total")) :=
  connection_counts_spec (fun _ => some "eth0")
    [⟨some "1.2.3.4", .tcp⟩, ⟨none, .tcp⟩, ⟨some "5.6.7.8", .udp⟩,
      ⟨some "9.9.9.9", .otherKind⟩]
    (fun _ i h => by
      injection h with h2
      rw [← h2]
      decide)

theorem charListLe_refl : ∀ l : List Char, charListLe l l = true := by
  intro l
  induction l with
  | nil => rfl
  | cons a as ih =>
    simp only [charListLe]
    rw [if_neg (by omega), if_neg (by omega)]
    exact ih

theorem charListLe_head {b c : Char} {bs cs : List Char}
    (h : charListLe (b :: bs) (c :: cs) = true) : b.toNat ≤ c.toNat := by
  by_cases h1 : b.toNat < c.toNat
  · omega
  · by_cases h2 : c.toNat < b.toNat
    · simp only [charListLe, if_neg h1, if_pos h2] at h
      cases h
    · omega

theorem charListLe_trans :
    ∀ l1 l2 l3 : List Char, charListLe l1 l2 = true → charListLe l2 l3 = true →
      charListLe l1 l3 = true := by
  intro l1
  induction l1 with
  | nil => intro l2 l3 _ _; rfl
  | cons a as ih =>
    intro l2 l3 h12 h23
    cases l2 with
    | nil => simp [charListLe] at h12
    | cons b bs =>
      cases l3 with
      | nil => simp [charListLe] at h23
      | cons c cs =>
        rcases Nat.lt_trichotomy a.toNat b.toNat with hab | hab | hab
        · have hbc := charListLe_head h23
          simp only [charListLe]
          rw [if_pos (by omega)]
        · have h12' : charListLe as bs = true := by
            simp only [charListLe, if_neg (by omega : ¬a.toNat < b.toNat),
              if_neg (by omega : ¬b.toNat < a.toNat)] at h12
            exact h12
          rcases Nat.lt_trichotomy b.toNat c.toNat with hbc | hbc | hbc
          · simp only [charListLe]
            rw [if_pos (by omega)]
          · have h23' : charListLe bs cs = true := by
              simp only [charListLe, if_neg (by omega : ¬b.toNat < c.toNat),
                if_neg (by omega : ¬c.toNat < b.toNat)] at h23
              exact h23
            simp only [charListLe]
            rw [if_neg (by omega), if_neg (by omega)]
            exact ih bs cs h12' h23'
          · have := charListLe_head h23
            omega
        · have := charListLe_head h12
          omega

theorem charListLe_total :
    ∀ l1 l2 : List Char, (charListLe l1 l2 || charListLe l2 l1) = true := by
  intro l1
  induction l1 with
  | nil => intro l2; simp [charListLe]
  | cons a as ih =>
    intro l2
    cases l2 with
    | nil => simp [charListLe]
    | cons b bs =>
      rcases Nat.lt_trichotomy a.toNat b.toNat with h | h | h
      · have e1 : charListLe (a :: as) (b :: bs) = true := by
          simp only [charListLe]
          rw [if_pos h]
        rw [e1]
        simp
      · have e1 : charListLe (a :: as) (b :: bs) = charListLe as bs := by
          simp only [charListLe]
          rw [if_neg (by omega), if_neg (by omega)]
        have e2 : charListLe (b :: bs) (a :: as) = charListLe bs as := by
          simp only [charListLe]
          rw [if_neg (by omega), if_neg (by omega)]
        rw [e1, e2]
        exact ih bs
      · have e2 : charListLe (b :: bs) (a :: as) = true := by
          simp only [charListLe]
          rw [if_pos h]
        rw [e2]
        simp

theorem rankLe_refl (a : String × Bool) : rankLe a a = true := by
  simp [rankLe, charListLe_refl]

theorem rankLe_total (a b : String × Bool) : (rankLe a b || rankLe b a) = true := by
  by_cases h : a.2 = b.2
  · have e1 : rankLe a b = charListLe a.1.data b.1.data := by simp [rankLe, h]
    have e2 : rankLe b a = charListLe b.1.data a.1.data := by simp [rankLe, h.symm]
    rw [e1, e2]
    exact charListLe_total _ _
  · have hba : ¬b.2 = a.2 := fun hc => h hc.symm
    have e1 : rankLe a b = a.2 := by simp [rankLe, h]
    have e2 : rankLe b a = b.2 := by simp [rankLe, hba]
    rw [e1, e2]
    cases ha : a.2 <;> cases hb : b.2 <;> simp_all

theorem rankLe_trans (a b c : String × Bool) (h1 : rankLe a b = true)
    (h2 : rankLe b c = true) : rankLe a c = true := by
  by_cases hab : a.2 = b.2 <;> by_cases hbc : b.2 = c.2
  · have hac : a.2 = c.2 := hab.trans hbc
    have e1 : rankLe a b = charListLe a.1.data b.1.data := by simp [rankLe, hab]
    have e2 : rankLe b c = charListLe b.1.data c.1.data := by simp [rankLe, hbc]
    have e3 : rankLe a c = charListLe a.1.data c.1.data := by simp [rankLe, hac]
    rw [e3]
    exact charListLe_trans _ _ _ (e1 ▸ h1) (e2 ▸ h2)
  · have e2 : rankLe b c = b.2 := by simp [rankLe, hbc]
    have hb2 : b.2 = true := e2 ▸ h2
    have hac : ¬a.2 = c.2 := fun hc => hbc (hab.symm.trans hc)
    have e3 : rankLe a c = a.2 := by simp [rankLe, hac]
    rw [e3, hab]
    exact hb2
  · have e1 : rankLe a b = a.2 := by simp [rankLe, hab]
    have hac : ¬a.2 = c.2 := fun hc => hab (hc.trans hbc.symm)
    have e3 : rankLe a c = a.2 := by simp [rankLe, hac]
    rw [e3]
    exact e1 ▸ h1
  · have e1 : rankLe a b = a.2 := by simp [rankLe, hab]
    have e2 : rankLe b c = b.2 := by simp [rankLe, hbc]
    have ha2 : a.2 = true := e1 ▸ h1
    have hb2 : b.2 = true := e2 ▸ h2
    exact absurd (ha2.trans hb2.symm) hab

theorem find?_append_none {α : Type} (p : α → Bool) :
    ∀ pre : List α, (∀ j ∈ pre, p j = false) → ∀ rest : List α,
      List.find? p (pre ++ rest) = List.find? p rest := by
  intro pre
  induction pre with
  | nil => intro _ rest; rfl
  | cons a l ih =>
    intro h rest
    rw [List.cons_append, List.find?_cons_of_neg]
    · exact ih (fun j hj => h j (List.mem_cons_of_mem a hj)) rest
    · simp [h a (List.mem_cons_self a l)]

theorem mergeSort_head_min {l : List (String × Bool)} {c : String × Bool}
    {rest : List (String × Bool)} (h : l.mergeSort rankLe = c :: rest) :
    ∀ d ∈ l, rankLe c d = true := by
  intro d hd
  have hmem : d ∈ c :: rest := by
    rw [← h]
    exact List.mem_mergeSort.mpr hd
  have hsorted := List.sorted_mergeSort
    (fun x y z hxy hyz => rankLe_trans x y z hxy hyz)
    (fun x y => rankLe_total x y) l
  rw [h] at hsorted
  rcases List.mem_cons.mp hmem with he | hm
  · rw [he]
    exact rankLe_refl c
  · exact (List.pairwise_cons.mp hsorted).1 d hm

/-- C6: NIC selection is a deterministic (pure) function of the interface
snapshot; whenever candidates survive the virtual-pattern and up filters,
the selected name belongs to a candidate that is minimal in the ranking
(has-IPv4 descending, name ascending); with no surviving candidate the
result is exactly the first non-loopback interface in snapshot order
(every snapshot decomposition `pre ++ i :: post` with all of `pre` named
`lo` and `i` not selects `i`), falling back to `'lo'` only when every
interface is named `lo`; and on the snapshot `eth0` up/IPv4/physical,
`docker0` up/virtual, the selected default is `eth0`. -/
theorem detect_default_nic_spec :
    (∀ stats : List IfaceInfo,
      (((stats.filter fun i => !isVirtualNic i.name && i.isup).map
          fun i => (i.name, i.hasIPv4)) ≠ [] →
        ∃ c ∈ ((stats.filter fun i => !isVirtualNic i.name && i.isup).map
            fun i => (i.name, i.hasIPv4)),
          detectDefaultNic stats = c.1 ∧
          ∀ d ∈ ((stats.filter fun i => !isVirtualNic i.name && i.isup).map
              fun i => (i.name, i.hasIPv4)),
            rankLe c d = true) ∧
      (((stats.filter fun i => !isVirtualNic i.name && i.isup).map
          fun i => (i.name, i.hasIPv4)) = [] →
        ((∀ i ∈ stats, i.name = "lo") → detectDefaultNic stats = "lo") ∧
        (∀ (pre : List IfaceInfo) (i : IfaceInfo) (post : List IfaceInfo),
          stats = pre ++ i :: post → (∀ j ∈ pre, j.name = "lo") → i.name ≠ "lo" →
          detectDefaultNic stats = i.name))) ∧
    detectDefaultNic [⟨"eth0", true, true⟩, ⟨"docker0", true, true⟩] = "eth0" := by
  constructor
  · intro stats
    constructor
    · intro hne
      cases hms : ((stats.filter fun i => !isVirtualNic i.name && i.isup).map
          fun i => (i.name, i.hasIPv4)).mergeSort rankLe with
      | nil =>
        obtain ⟨x, hx⟩ := List.exists_mem_of_ne_nil _ hne
        have hmx : x ∈ ((stats.filter fun i => !isVirtualNic i.name && i.isup).map
            fun i => (i.name, i.hasIPv4)).mergeSort rankLe := List.mem_mergeSort.mpr hx
        rw [hms] at hmx
        cases hmx
      | cons c rest =>
        refine ⟨c, ?_, ?_, mergeSort_head_min hms⟩
        · have hmc : c ∈ ((stats.filter fun i => !isVirtualNic i.name && i.isup).map
              fun i => (i.name, i.hasIPv4)).mergeSort rankLe := by
            rw [hms]
            exact List.mem_cons_self c rest
          exact List.mem_mergeSort.mp hmc
        · simp only [detectDefaultNic]
          rw [hms]
    · intro hemp
      have hms : ((stats.filter fun i => !isVirtualNic i.name && i.isup).map
          fun i => (i.name, i.hasIPv4)).mergeSort rankLe = [] := by
        rw [hemp, List.mergeSort_nil]
      constructor
      · intro hall
        have hfind : stats.find? (fun i => i.name != "lo") = none := by
          rw [List.find?_eq_none]
          intro x hx
          simp [hall x hx]
        simp only [detectDefaultNic]
        rw [hms, hfind]
      · intro pre i post hdec hpre hi
        have hfind : stats.find? (fun i' => i'.name != "lo") = some i := by
          rw [hdec, find?_append_none _ pre (fun j hj => by simp [hpre j hj]) (i :: post)]
          exact List.find?_cons_of_pos _ (by simp [hi])
        simp only [detectDefaultNic]
        rw [hms, hfind]
  · have hc : (([⟨"eth0", true, true⟩, ⟨"docker0", true, true⟩] : List IfaceInfo).filter
        fun i => !isVirtualNic i.name && i.isup).map (fun i => (i.name, i.hasIPv4)) =
        [("eth0", true)] := by decide
    simp only [detectDefaultNic]
    rw [hc, List.mergeSort_singleton]

theorem detect_default_nic_spec_witness :
    (([(⟨"eth0", true, true⟩ : IfaceInfo)].filter fun i => !isVirtualNic i.name && i.isup).map
        (fun i => (i.name, i.hasIPv4)) ≠ []) ∧
    (∃ c ∈ ([(⟨"eth0", true, true⟩ : IfaceInfo)].filter
          fun i => !isVirtualNic i.name && i.isup).map (fun i => (i.name, i.hasIPv4)),
      detectDefaultNic [⟨"eth0", true, true⟩] = c.1 ∧
      ∀ d ∈ ([(⟨"eth0", true, true⟩ : IfaceInfo)].filter
          fun i => !isVirtualNic i.name && i.isup).map (fun i => (i.name, i.hasIPv4)),
        rankLe c d = true) ∧
    ((([⟨"lo", true, true⟩, ⟨"docker0", true, false⟩] : List IfaceInfo).filter
        fun i => !isVirtualNic i.name && i.isup).map (fun i => (i.name, i.hasIPv4)) = []) ∧
    detectDefaultNic [⟨"lo", true, true⟩, ⟨"docker0", true, false⟩] = "docker0" :=
  ⟨by decide, (detect_default_nic_spec.1 [⟨"eth0", true, true⟩]).1 (by decide), by decide,
    ((detect_default_nic_spec.1 [⟨"lo", true, true⟩, ⟨"docker0", true, false⟩]).2
        (by decide)).2
      [⟨"lo", true, true⟩] ⟨"docker0", true, false⟩ [] rfl (by decide) (by decide)⟩

theorem range_map_bucket_pos (k : String) (W B : ℤ) (h : RANGE_MAP k = (W, some B)) :
    0 < B := by
  unfold RANGE_MAP at h
  split at h <;> simp_all <;> omega

/-- C7: the range totals equal `round(Σ point.net_sent * interval / 2^30, 2)`
(and the recv analogue), where the interval is the bucket size for the
aggregated range keys and the 30-second collection interval for the raw
keys (including the fallback policy for unknown keys). -/
theorem totals_formula (table : List Sample) (now : ℚ) (key : String) :
    (∀ W B : ℤ, RANGE_MAP key = (W, some B) →
      (getMetrics table now key).sent_gb =
        pyRound 2 (((getMetrics table now key).data.map (·.net_sent)).sum * (B : ℚ) / 2 ^ 30) ∧
      (getMetrics table now key).recv_gb =
        pyRound 2 (((getMetrics table now key).data.map (·.net_recv)).sum * (B : ℚ) / 2 ^ 30)) ∧
    (∀ W : ℤ, RANGE_MAP key = (W, none) →
      (getMetrics table now key).sent_gb =
        pyRound 2 (((getMetrics table now key).data.map (·.net_sent)).sum *
          (COLLECT_INTERVAL : ℚ) / 2 ^ 30) ∧
      (getMetrics table now key).recv_gb =
        pyRound 2 (((getMetrics table now key).data.map (·.net_recv)).sum *
          (COLLECT_INTERVAL : ℚ) / 2 ^ 30)) := by
  have h1024 : ((1024 : ℚ) ^ 3) = 2 ^ 30 := by norm_num
  constructor
  · intro W B h
    have hB := range_map_bucket_pos key W B h
    have hint : rangeInterval (RANGE_MAP key).2 = B := by
      rw [h]
      show (if B = 0 then COLLECT_INTERVAL else B) = B
      rw [if_neg (by omega)]
    constructor
    · show pyRound 2 (((getMetrics table now key).data.map (·.net_sent)).sum *
          ((rangeInterval (RANGE_MAP key).2 : ℤ) : ℚ) / 1024 ^ 3) = _
      rw [hint, h1024]
    · show pyRound 2 (((getMetrics table now key).data.map (·.net_recv)).sum *
          ((rangeInterval (RANGE_MAP key).2 : ℤ) : ℚ) / 1024 ^ 3) = _
      rw [hint, h1024]
  · intro W h
    have hint : rangeInterval (RANGE_MAP key).2 = COLLECT_INTERVAL := by
      rw [h]
      rfl
    constructor
    · show pyRound 2 (((getMetrics table now key).data.map (·.net_sent)).sum *
          ((rangeInterval (RANGE_MAP key).2 : ℤ) : ℚ) / 1024 ^ 3) = _
      rw [hint, h1024]
    · show pyRound 2 (((getMetrics table now key).data.map (·.net_recv)).sum *
          ((rangeInterval (RANGE_MAP key).2 : ℤ) : ℚ) / 1024 ^ 3) = _
      rw [hint, h1024]

theorem totals_formula_witness :
    RANGE_MAP "6h" = (21600, some 30) ∧
    ((getMetrics [] 21600 "6h").sent_gb =
        pyRound 2 (((getMetrics [] 21600 "6h").data.map (·.net_sent)).sum *
          ((30 : ℤ) : ℚ) / 2 ^ 30) ∧
      (getMetrics [] 21600 "6h").recv_gb =
        pyRound 2 (((getMetrics [] 21600 "6h").data.map (·.net_recv)).sum *
          ((30 : ℤ) : ℚ) / 2 ^ 30)) :=
  ⟨rfl, (totals_formula [] 21600 "6h").1 21600 30 rfl⟩

theorem sqlCastInt_nonneg {q : ℚ} (h : 0 ≤ q) : sqlCastInt q = ⌊q⌋ := by
  unfold sqlCastInt
  rw [if_neg (not_lt.mpr h)]

theorem bucketOf_eq_floor {B : ℤ} (hB : 0 < B) {ts : ℚ} (h : 0 ≤ ts) :
    bucketOf B ts = ⌊ts / (B : ℚ)⌋ := by
  unfold bucketOf
  exact sqlCastInt_nonneg (div_nonneg h (by exact_mod_cast hB.le))

theorem bucketGroup_eq (table : List Sample) (cutoff : ℚ) {B : ℤ} (hB : 0 < B)
    (hts : ∀ s ∈ table, 0 ≤ s.timestamp) (k : ℤ) :
    bucketGroup table cutoff B k =
      (table.filter fun s => decide (cutoff ≤ s.timestamp)).filter
        fun s => decide (bucketOf B s.timestamp = k) := by
  rw [List.filter_filter]
  unfold bucketGroup
  refine List.filter_congr fun s hs => ?_
  rw [bucketOf_eq_floor hB (hts s hs)]
  rw [Bool.and_comm]

theorem foldl_max_mem : ∀ (l : List ℚ) (a : ℚ), l.foldl max a = a ∨ l.foldl max a ∈ l := by
  intro l
  induction l with
  | nil => intro a; left; rfl
  | cons x xs ih =>
    intro a
    rw [List.foldl_cons]
    rcases ih (max a x) with h | h
    · rcases max_choice a x with hm | hm
      · left
        rw [h, hm]
      · right
        rw [h, hm]
        exact List.mem_cons_self x xs
    · right
      exact List.mem_cons_of_mem x h

theorem le_foldl_max :
    ∀ (l : List ℚ) (a : ℚ), a ≤ l.foldl max a ∧ ∀ x ∈ l, x ≤ l.foldl max a := by
  intro l
  induction l with
  | nil => intro a; exact ⟨le_refl a, fun x hx => absurd hx (List.not_mem_nil x)⟩
  | cons y ys ih =>
    intro a
    rw [List.foldl_cons]
    obtain ⟨h1, h2⟩ := ih (max a y)
    refine ⟨le_trans (le_max_left a y) h1, fun x hx => ?_⟩
    rcases List.mem_cons.mp hx with he | hm
    · rw [he]
      exact le_trans (le_max_right a y) h1
    · exact h2 x hm

theorem maxD_spec {l : List ℚ} (h : l ≠ []) : maxD l ∈ l ∧ ∀ x ∈ l, x ≤ maxD l := by
  cases l with
  | nil => exact absurd rfl h
  | cons x xs =>
    constructor
    · show xs.foldl max x ∈ x :: xs
      rcases foldl_max_mem xs x with h1 | h1
      · rw [h1]
        exact List.mem_cons_self x xs
      · exact List.mem_cons_of_mem x h1
    · intro y hy
      rcases List.mem_cons.mp hy with he | hm
      · rw [he]
        exact (le_foldl_max xs x).1
      · exact (le_foldl_max xs x).2 y hm

theorem foldl_latest_spec :
    ∀ (xs : List Sample) (a : Sample),
      ((xs.foldl (fun acc s => if acc.timestamp < s.timestamp then s else acc) a) = a ∨
        (xs.foldl (fun acc s => if acc.timestamp < s.timestamp then s else acc) a) ∈ xs) ∧
      a.timestamp ≤
        (xs.foldl (fun acc s => if acc.timestamp < s.timestamp then s else acc) a).timestamp ∧
      ∀ y ∈ xs, y.timestamp ≤
        (xs.foldl (fun acc s => if acc.timestamp < s.timestamp then s else acc) a).timestamp := by
  intro xs
  induction xs with
  | nil => intro a; exact ⟨Or.inl rfl, le_refl _, fun y hy => absurd hy (List.not_mem_nil y)⟩
  | cons x l ih =>
    intro a
    rw [List.foldl_cons]
    obtain ⟨h1, h2, h3⟩ := ih (if a.timestamp < x.timestamp then x else a)
    have hax : a.timestamp ≤ (if a.timestamp < x.timestamp then x else a).timestamp := by
      by_cases hc : a.timestamp < x.timestamp
      · rw [if_pos hc]
        exact le_of_lt hc
      · rw [if_neg hc]
    have hxx : x.timestamp ≤ (if a.timestamp < x.timestamp then x else a).timestamp := by
      by_cases hc : a.timestamp < x.timestamp
      · rw [if_pos hc]
      · rw [if_neg hc]
        exact le_of_not_lt hc
    refine ⟨?_, le_trans hax h2, fun y hy => ?_⟩
    · rcases h1 with h | h
      · by_cases hc : a.timestamp < x.timestamp
        · rw [if_pos hc] at h ⊢
          right
          rw [h]
          exact List.mem_cons_self x l
        · rw [if_neg hc] at h ⊢
          left
          exact h
      · right
        exact List.mem_cons_of_mem x h
    · rcases List.mem_cons.mp hy with he | hm
      · rw [he]
        exact le_trans hxx h2
      · exact h3 y hm

theorem latestSample_spec {l : List Sample} (h : l ≠ []) :
    ∃ m, latestSample l = some m ∧ m ∈ l ∧ ∀ y ∈ l, y.timestamp ≤ m.timestamp := by
  cases l with
  | nil => exact absurd rfl h
  | cons x xs =>
    obtain ⟨h1, h2, h3⟩ := foldl_latest_spec xs x
    refine ⟨_, rfl, ?_, ?_⟩
    · rcases h1 with he | hm
      · rw [he]
        exact List.mem_cons_self x xs
      · exact List.mem_cons_of_mem x hm
    · intro y hy
      rcases List.mem_cons.mp hy with he | hm
      · rw [he]
        exact h2
      · exact h3 y hm

/-- C1: for every aggregated range key, each returned point corresponds to a
nonempty bucket of retained Samples grouped by `⌊timestamp / B⌋ = k`: its
timestamp is `k * B`, its percent/used/rate fields are the (display-rounded)
arithmetic means of the group, its total-GB fields are the maximum over the
group, and its payload comes from a group member of maximal timestamp;
points are emitted in strictly ascending bucket-timestamp order, an empty
bucket contributes no point, and — completeness — every nonempty bucket of
in-window Samples produces a returned point with its bucket timestamp, so
there is exactly one point per nonempty bucket. -/
theorem agg_query_spec (table : List Sample) (now : ℚ) (key : String) (W B : ℤ)
    (hpol : RANGE_MAP key = (W, some B))
    (hts : ∀ s ∈ table, 0 ≤ s.timestamp) :
    (∀ p ∈ (getMetrics table now key).data, ∃ k : ℤ,
      bucketGroup table (now - (W : ℚ)) B k ≠ [] ∧
      p.t = (k : ℚ) * (B : ℚ) ∧
      p.cpu = pyRound 1 (mean ((bucketGroup table (now - (W : ℚ)) B k).map (·.cpu_percent))) ∧
      p.ram = pyRound 1 (mean ((bucketGroup table (now - (W : ℚ)) B k).map (·.ram_percent))) ∧
      p.ram_used =
        pyRound 2 (mean ((bucketGroup table (now - (W : ℚ)) B k).map (·.ram_used_gb))) ∧
      p.disk = pyRound 1 (mean ((bucketGroup table (now - (W : ℚ)) B k).map (·.disk_percent))) ∧
      p.disk_used =
        pyRound 2 (mean ((bucketGroup table (now - (W : ℚ)) B k).map (·.disk_used_gb))) ∧
      p.net_sent =
        (pyRoundInt (mean ((bucketGroup table (now - (W : ℚ)) B k).map (·.net_sent_rate))) : ℚ) ∧
      p.net_recv =
        (pyRoundInt (mean ((bucketGroup table (now - (W : ℚ)) B k).map (·.net_recv_rate))) : ℚ) ∧
      (p.ram_total ∈ (bucketGroup table (now - (W : ℚ)) B k).map (·.ram_total_gb) ∧
        ∀ v ∈ (bucketGroup table (now - (W : ℚ)) B k).map (·.ram_total_gb), v ≤ p.ram_total) ∧
      (p.disk_total ∈ (bucketGroup table (now - (W : ℚ)) B k).map (·.disk_total_gb) ∧
        ∀ v ∈ (bucketGroup table (now - (W : ℚ)) B k).map (·.disk_total_gb), v ≤ p.disk_total) ∧
      (∃ s ∈ bucketGroup table (now - (W : ℚ)) B k,
        (∀ y ∈ bucketGroup table (now - (W : ℚ)) B k, y.timestamp ≤ s.timestamp) ∧
        p.conns = some s.conn_json ∧ p.extra = some s.extra_json)) ∧
    ((getMetrics table now key).data.map (·.t)).Pairwise (· < ·) ∧
    (∀ k : ℤ, bucketGroup table (now - (W : ℚ)) B k = [] →
      ∀ p ∈ (getMetrics table now key).data, p.t ≠ (k : ℚ) * (B : ℚ)) ∧
    (∀ k : ℤ, bucketGroup table (now - (W : ℚ)) B k ≠ [] →
      ∃ p ∈ (getMetrics table now key).data, p.t = (k : ℚ) * (B : ℚ)) := by
  have hB : 0 < B := range_map_bucket_pos key W B hpol
  have hBQ : (0 : ℚ) < (B : ℚ) := by exact_mod_cast hB
  set cutoff := now - (W : ℚ) with hcut
  set filtered := table.filter fun s => decide (cutoff ≤ s.timestamp) with hfil
  set keys := (filtered.map fun s => bucketOf B s.timestamp).toFinset.sort (· ≤ ·) with hkeys
  have hdata : (getMetrics table now key).data = keys.map (aggPointAt table filtered B) := by
    simp only [getMetrics, hpol]
    rfl
  have hGrpEq : ∀ k : ℤ, bucketGroup table cutoff B k =
      filtered.filter fun s => decide (bucketOf B s.timestamp = k) :=
    fun k => bucketGroup_eq table cutoff hB hts k
  have hKeyNe : ∀ k ∈ keys,
      (filtered.filter fun s => decide (bucketOf B s.timestamp = k)) ≠ [] := by
    intro k hk
    have hkm : k ∈ filtered.map fun s => bucketOf B s.timestamp := by
      rw [hkeys] at hk
      exact List.mem_toFinset.mp ((Finset.mem_sort _).mp hk)
    obtain ⟨s, hs, hbs⟩ := List.mem_map.mp hkm
    have hmem : s ∈ filtered.filter fun s' => decide (bucketOf B s'.timestamp = k) :=
      List.mem_filter.mpr ⟨hs, by simp [hbs]⟩
    exact List.ne_nil_of_mem hmem
  refine ⟨?_, ?_, ?_, ?_⟩
  · intro p hp
    rw [hdata] at hp
    obtain ⟨k, hk, hpk⟩ := List.mem_map.mp hp
    refine ⟨k, ?_⟩
    rw [hGrpEq k]
    subst hpk
    have hgne := hKeyNe k hk
    obtain ⟨s0, hs0⟩ := List.exists_mem_of_ne_nil _ hgne
    have hs0f := List.mem_filter.mp hs0
    have hs0cut : cutoff ≤ s0.timestamp :=
      of_decide_eq_true (List.mem_filter.mp hs0f.1).2
    have hs0full : s0 ∈ table.filter fun s' => decide (bucketOf B s'.timestamp = k) :=
      List.mem_filter.mpr ⟨(List.mem_filter.mp hs0f.1).1, hs0f.2⟩
    have hfullne : (table.filter fun s' => decide (bucketOf B s'.timestamp = k)) ≠ [] :=
      List.ne_nil_of_mem hs0full
    obtain ⟨m, hlat, hmem, hmax⟩ := latestSample_spec hfullne
    have hmcut : cutoff ≤ m.timestamp := le_trans hs0cut (hmax s0 hs0full)
    have hmfull := List.mem_filter.mp hmem
    have hmg : m ∈ filtered.filter fun s' => decide (bucketOf B s'.timestamp = k) :=
      List.mem_filter.mpr ⟨List.mem_filter.mpr ⟨hmfull.1, decide_eq_true hmcut⟩, hmfull.2⟩
    refine ⟨hgne, ?_, rfl, rfl, rfl, rfl, rfl, rfl, rfl, ?_, ?_, ?_⟩
    · show ((k * B : ℤ) : ℚ) = (k : ℚ) * (B : ℚ)
      push_cast
      ring
    · have hv : s0.ram_total_gb ∈
          (filtered.filter fun s' => decide (bucketOf B s'.timestamp = k)).map
            (·.ram_total_gb) := List.mem_map_of_mem _ hs0
      exact maxD_spec (List.ne_nil_of_mem hv)
    · have hv : s0.disk_total_gb ∈
          (filtered.filter fun s' => decide (bucketOf B s'.timestamp = k)).map
            (·.disk_total_gb) := List.mem_map_of_mem _ hs0
      exact maxD_spec (List.ne_nil_of_mem hv)
    · refine ⟨m, hmg, ?_, ?_, ?_⟩
      · intro y hy
        have hyf := List.mem_filter.mp hy
        have hyfull : y ∈ table.filter fun s' => decide (bucketOf B s'.timestamp = k) :=
          List.mem_filter.mpr ⟨(List.mem_filter.mp hyf.1).1, hyf.2⟩
        exact hmax y hyfull
      · show (latestSample (table.filter fun s' =>
            decide (bucketOf B s'.timestamp = k))).map (·.conn_json) = some m.conn_json
        rw [hlat]
        rfl
      · show (latestSample (table.filter fun s' =>
            decide (bucketOf B s'.timestamp = k))).map (·.extra_json) = some m.extra_json
        rw [hlat]
        rfl
  · rw [hdata]
    have hmm : ((keys.map (aggPointAt table filtered B)).map (·.t)) =
        keys.map fun k => ((k * B : ℤ) : ℚ) := by
      rw [List.map_map]
      exact List.map_congr_left fun k _ => rfl
    rw [hmm]
    have hsorted : keys.Pairwise (· < ·) := by
      rw [hkeys]
      exact Finset.sort_sorted_lt _
    refine List.Pairwise.map _ ?_ hsorted
    intro a b hab
    show ((a * B : ℤ) : ℚ) < ((b * B : ℤ) : ℚ)
    exact_mod_cast mul_lt_mul_of_pos_right hab hB
  · intro k hkemp p hp
    rw [hGrpEq k] at hkemp
    rw [hdata] at hp
    obtain ⟨k', hk', hpk⟩ := List.mem_map.mp hp
    subst hpk
    intro hteq
    have hteq' : (k' : ℚ) * (B : ℚ) = (k : ℚ) * (B : ℚ) := by
      have : ((k' * B : ℤ) : ℚ) = (k : ℚ) * (B : ℚ) := hteq
      push_cast at this
      exact this
    have hkk : k' = k := by
      have := mul_right_cancel₀ (ne_of_gt hBQ) hteq'
      exact_mod_cast this
    have hne := hKeyNe k' hk'
    rw [hkk] at hne
    exact hne hkemp
  · intro k hk
    rw [hGrpEq k] at hk
    obtain ⟨s, hs⟩ := List.exists_mem_of_ne_nil _ hk
    have hsf := List.mem_filter.mp hs
    have hkm : k ∈ filtered.map fun s' => bucketOf B s'.timestamp :=
      List.mem_map.mpr ⟨s, hsf.1, of_decide_eq_true hsf.2⟩
    have hkk : k ∈ keys := by
      rw [hkeys]
      exact (Finset.mem_sort _).mpr (List.mem_toFinset.mpr hkm)
    refine ⟨aggPointAt table filtered B k, ?_, ?_⟩
    · rw [hdata]
      exact List.mem_map_of_mem _ hkk
    · show ((k * B : ℤ) : ℚ) = (k : ℚ) * (B : ℚ)
      push_cast
      ring

theorem agg_query_spec_witness :
    RANGE_MAP "6h" = ((21600 : ℤ), some (30 : ℤ)) ∧
    (∀ s ∈ wTable, 0 ≤ s.timestamp) ∧
    ((∀ p ∈ (getMetrics wTable 21600 "6h").data, ∃ k : ℤ,
      bucketGroup wTable (21600 - ((21600 : ℤ) : ℚ)) 30 k ≠ [] ∧
      p.t = (k : ℚ) * ((30 : ℤ) : ℚ) ∧
      p.cpu = pyRound 1 (mean ((bucketGroup wTable (21600 - ((21600 : ℤ) : ℚ)) 30 k).map
        (·.cpu_percent))) ∧
      p.ram = pyRound 1 (mean ((bucketGroup wTable (21600 - ((21600 : ℤ) : ℚ)) 30 k).map
        (·.ram_percent))) ∧
      p.ram_used = pyRound 2 (mean ((bucketGroup wTable (21600 - ((21600 : ℤ) : ℚ)) 30 k).map
        (·.ram_used_gb))) ∧
      p.disk = pyRound 1 (mean ((bucketGroup wTable (21600 - ((21600 : ℤ) : ℚ)) 30 k).map
        (·.disk_percent))) ∧
      p.disk_used = pyRound 2 (mean ((bucketGroup wTable (21600 - ((21600 : ℤ) : ℚ)) 30 k).map
        (·.disk_used_gb))) ∧
      p.net_sent = (pyRoundInt (mean ((bucketGroup wTable (21600 - ((21600 : ℤ) : ℚ)) 30 k).map
        (·.net_sent_rate))) : ℚ) ∧
      p.net_recv = (pyRoundInt (mean ((bucketGroup wTable (21600 - ((21600 : ℤ) : ℚ)) 30 k).map
        (·.net_recv_rate))) : ℚ) ∧
      (p.ram_total ∈ (bucketGroup wTable (21600 - ((21600 : ℤ) : ℚ)) 30 k).map (·.ram_total_gb) ∧
        ∀ v ∈ (bucketGroup wTable (21600 - ((21600 : ℤ) : ℚ)) 30 k).map (·.ram_total_gb),
          v ≤ p.ram_total) ∧
      (p.disk_total ∈ (bucketGroup wTable (21600 - ((21600 : ℤ) : ℚ)) 30 k).map
          (·.disk_total_gb) ∧
        ∀ v ∈ (bucketGroup wTable (21600 - ((21600 : ℤ) : ℚ)) 30 k).map (·.disk_total_gb),
          v ≤ p.disk_total) ∧
      (∃ s ∈ bucketGroup wTable (21600 - ((21600 : ℤ) : ℚ)) 30 k,
        (∀ y ∈ bucketGroup wTable (21600 - ((21600 : ℤ) : ℚ)) 30 k,
          y.timestamp ≤ s.timestamp) ∧
        p.conns = some s.conn_json ∧ p.extra = some s.extra_json)) ∧
    ((getMetrics wTable 21600 "6h").data.map (·.t)).Pairwise (· < ·) ∧
    (∀ k : ℤ, bucketGroup wTable (21600 - ((21600 : ℤ) : ℚ)) 30 k = [] →
      ∀ p ∈ (getMetrics wTable 21600 "6h").data, p.t ≠ (k : ℚ) * ((30 : ℤ) : ℚ)) ∧
    (∀ k : ℤ, bucketGroup wTable (21600 - ((21600 : ℤ) : ℚ)) 30 k ≠ [] →
      ∃ p ∈ (getMetrics wTable 21600 "6h").data, p.t = (k : ℚ) * ((30 : ℤ) : ℚ))) :=
  ⟨rfl, by decide, agg_query_spec wTable 21600 "6h" 21600 30 rfl (by decide)⟩

end ServerMonitor
